import Mathlib

/-!
Shallow embedding of the food-price-inflation dashboard pipeline
(`untitled2.py`): dataset preparation (`load_data`), row filtering
(`filtered_data`), CSV export (`convert_df_to_csv`), and the
(month, year) aggregator of the specification.

Tables are lists of rows.  Numeric columns are modelled by `ℚ`,
dates by a year/month/day record, raw (pre-coercion) cells by
`String`, and a possibly-missing month label by `Option String`.
-/

/-- Decimal digit rendered as a character: `digitChar 0 = '0'`. -/
def digitChar (d : ℕ) : Char := Char.ofNat (48 + d)

/-- Numeric value of a decimal digit character. -/
def digitVal (c : Char) : ℕ := c.toNat - 48

/-- `true` iff `c` is one of `'0'`..`'9'`. -/
def isDigitChar (c : Char) : Bool := 48 ≤ c.toNat && c.toNat ≤ 57

/-- Most-significant-first decimal digits of `n`; `fuel` bounds the recursion. -/
def natToCharsAux : ℕ → ℕ → List Char
  | 0, _ => []
  | fuel + 1, n => if n = 0 then [] else natToCharsAux fuel (n / 10) ++ [digitChar (n % 10)]

/-- Decimal rendering of a natural number. -/
def natToChars (n : ℕ) : List Char := if n = 0 then ['0'] else natToCharsAux n n

/-- Value of a most-significant-first decimal digit string. -/
def charsToNat (cs : List Char) : ℕ := Nat.ofDigits 10 (cs.reverse.map digitVal)

/-- Decimal rendering of an integer (leading `'-'` when negative). -/
def intToChars (n : ℤ) : List Char :=
  if n < 0 then '-' :: natToChars n.natAbs else natToChars n.toNat

/-- Value of an optionally `'-'`-signed decimal digit string. -/
def charsToInt (cs : List Char) : ℤ :=
  if cs.head? = some '-' then -(charsToNat cs.tail : ℤ) else (charsToNat cs : ℤ)

/-- Split a character list at every occurrence of `sep`; always returns at
least one (possibly empty) cell. -/
def splitOnChar (sep : Char) : List Char → List (List Char)
  | [] => [[]]
  | c :: cs =>
    match splitOnChar sep cs with
    | [] => [[]]
    | h :: t => if c = sep then [] :: h :: t else (c :: h) :: t

/-- Interleave `sep` between the given cells. -/
def joinSep (sep : Char) : List (List Char) → List Char
  | [] => []
  | [l] => l
  | l :: l2 :: ls => l ++ sep :: joinSep sep (l2 :: ls)

/-- A calendar date, as produced by coercing the `EndDate` column. -/
structure Date where
  year : ℕ
  month : ℕ
  day : ℕ
deriving DecidableEq, Repr

/-- A row of the raw source table before any coercion: `EndDate`, `Year` and
`Value` are still text cells; a missing `Month` cell is `none`. -/
structure RawRow where
  Item : String
  EndDate : String
  Year : String
  Month : Option String
  Value : String
deriving DecidableEq, Repr

/-- A row of the cleaned table: `EndDate`, `Year`, `Value` are typed. -/
structure CleanRow where
  Item : String
  EndDate : Date
  Year : ℚ
  Month : Option String
  Value : ℚ
deriving DecidableEq, Repr

/-- Embeds `pd.to_numeric(·, errors='coerce')` on a text cell: an optional
sign, decimal digits, and an optional fractional part; anything else is `none`. -/
def parseNumChars (cs : List Char) : Option ℚ :=
  let signed : Bool × List Char :=
    match cs with
    | '-' :: rest => (true, rest)
    | _ => (false, cs)
  match splitOnChar '.' signed.2 with
  | [a] =>
    if a.all isDigitChar && !a.isEmpty then
      some (if signed.1 then -(charsToNat a : ℚ) else (charsToNat a : ℚ))
    else none
  | [a, b] =>
    if a.all isDigitChar && b.all isDigitChar && !(a ++ b).isEmpty then
      let v : ℚ := (charsToNat (a ++ b) : ℚ) / (10 : ℚ) ^ b.length
      some (if signed.1 then -v else v)
    else none
  | _ => none

/-- Numeric coercion of a raw cell. -/
def parseNum (s : String) : Option ℚ := parseNumChars s.data

/-- Embeds `pd.to_datetime(·, errors='coerce')` on a text cell: a
`YYYY-MM-DD` shape with a plausible month and day; anything else is `none`. -/
def parseDate (s : String) : Option Date :=
  match splitOnChar '-' s.data with
  | [a, b, c] =>
    if a.all isDigitChar && !a.isEmpty && b.all isDigitChar && !b.isEmpty &&
        c.all isDigitChar && !c.isEmpty then
      let m := charsToNat b
      let d := charsToNat c
      if 1 ≤ m ∧ m ≤ 12 ∧ 1 ≤ d ∧ d ≤ 31 then some ⟨charsToNat a, m, d⟩ else none
    else none
  | _ => none

/-- Column coercion followed by `dropna(subset=['EndDate', 'Year', 'Value'])`
for one row: `none` exactly when some coercion fails. -/
def coerceRow (r : RawRow) : Option CleanRow :=
  match parseDate r.EndDate, parseNum r.Year, parseNum r.Value with
  | some d, some y, some v => some ⟨r.Item, d, y, r.Month, v⟩
  | _, _, _ => none

/-- The cleaning body of `load_data`: keep the `Food price inflation`
category, coerce the three columns, drop rows where a coercion failed. -/
def cleanRows (raws : List RawRow) : List CleanRow :=
  (raws.filter (fun r => decide (r.Item = "Food price inflation"))).filterMap coerceRow

/-- The one fatal failure of the pipeline: the source could not be fetched
or parsed at all. -/
inductive LoadError where
  | DataUnavailable
deriving DecidableEq, Repr

/-- `load_data`: the raw fetch either failed (`pd.read_csv` raised) or
yielded raw rows, which are then cleaned. -/
def load_data (src : Except LoadError (List RawRow)) : Except LoadError (List CleanRow) :=
  match src with
  | Except.error e => Except.error e
  | Except.ok raws => Except.ok (cleanRows raws)

/-- `filtered_data`: rows whose `Year` lies in `[yLow, yHigh]`, whose
`Month` is one of the selected labels, and whose `Value` lies in
`[vLow, vHigh]` (all bounds inclusive, conditions conjoined). -/
def filtered_data (df : List CleanRow) (yLow yHigh : ℚ) (months : List (Option String))
    (vLow vHigh : ℚ) : List CleanRow :=
  df.filter (fun r =>
    decide (yLow ≤ r.Year) && decide (r.Year ≤ yHigh) && decide (r.Month ∈ months) &&
      decide (vLow ≤ r.Value) && decide (r.Value ≤ vHigh))

/-- The full straight-line pipeline: load, then filter. -/
def run_pipeline (src : Except LoadError (List RawRow)) (yLow yHigh : ℚ)
    (months : List (Option String)) (vLow vHigh : ℚ) : Except LoadError (List CleanRow) :=
  match load_data src with
  | Except.error e => Except.error e
  | Except.ok t => Except.ok (filtered_data t yLow yHigh months vLow vHigh)

/-- The grouping key of the aggregator: the (month, year) pair of a row. -/
def rowKey (r : CleanRow) : Option String × ℚ := (r.Month, r.Year)

/-- The reduction statistics of the aggregator. -/
inductive AggKind where
  | sum
  | average
  | median
deriving DecidableEq, Repr

/-- A row of the aggregated table. -/
structure AggRow where
  Month : Option String
  Year : ℚ
  Value : ℚ
deriving DecidableEq, Repr

/-- Median of a list of values: middle element of the sorted list, or the
mean of the two middle elements when the length is even. -/
def medianVal (vs : List ℚ) : ℚ :=
  let s := List.insertionSort (fun a b => a ≤ b) vs
  if s.length % 2 = 1 then s.getD (s.length / 2) 0
  else (s.getD (s.length / 2 - 1) 0 + s.getD (s.length / 2) 0) / 2

/-- Reduce the value column of one group by the chosen statistic. -/
def reduceVals : AggKind → List ℚ → ℚ
  | AggKind.sum, vs => vs.sum
  | AggKind.average, vs => vs.sum / (vs.length : ℚ)
  | AggKind.median, vs => medianVal vs

/-- The `Value` cells of the rows of `t` whose (month, year) key is `k`. -/
def valuesFor (t : List CleanRow) (k : Option String × ℚ) : List ℚ :=
  (t.filter (fun r => decide (rowKey r = k))).map CleanRow.Value

/-- Modelled from the spec: the Aggregator of §4.3 (`sum`/`average`/`median`
grouped by the (month, year) pair).  Only the `sum`-by-month reduction of the
pie chart is in `src/untitled2.py`; the full three-statistic aggregator is in
other revisions of the repository.  One output row per distinct (month, year)
pair of the input, carrying the reduced value of that group. -/
def aggregate (k : AggKind) (t : List CleanRow) : List AggRow :=
  ((t.map rowKey).dedup).map (fun p => ⟨p.1, p.2, reduceVals k (valuesFor t p)⟩)

/-- The pie-chart grouping of `untitled2.py`: restrict to the rows of the
latest year present, group by `Month`, sum `Value` per group. -/
def df_latest_year_grouped (t : List CleanRow) : List AggRow :=
  let latest := ((t.map CleanRow.Year).foldr max 0)
  let byYear := t.filter (fun r => decide (r.Year = latest))
  ((byYear.map CleanRow.Month).dedup).map
    (fun m => ⟨m, latest, ((byYear.filter (fun r => decide (r.Month = m))).map CleanRow.Value).sum⟩)

/-- The header row of the exported CSV, one cell per column. -/
def headerCells : List (List Char) :=
  ["Item".data, "EndDate".data, "Year".data, "Month".data, "Value".data]

/-- One CSV cell per column of a row, before quoting.  Dates print as
`Y-M-D`, rationals as `numerator/denominator`, a missing month (pandas
`NaN`) as the empty cell. -/
def printCells (r : CleanRow) : List (List Char) :=
  [r.Item.data,
   natToChars r.EndDate.year ++ '-' :: (natToChars r.EndDate.month ++ '-' :: natToChars r.EndDate.day),
   intToChars r.Year.num ++ '/' :: natToChars r.Year.den,
   (match r.Month with | none => [] | some m => m.data),
   intToChars r.Value.num ++ '/' :: natToChars r.Value.den]

/-- `csv.QUOTE_MINIMAL`: a cell must be quoted iff it contains the cell
delimiter, the quote character or a line break. -/
def needsQuote (cs : List Char) : Bool :=
  cs.any (fun c => c = ',' || c = '"' || c = '\n' || c = '\r')

/-- Double every quote character of a quoted cell's content. -/
def doubleQuotes : List Char → List Char
  | [] => []
  | c :: cs => if c = '"' then '"' :: '"' :: doubleQuotes cs else c :: doubleQuotes cs

/-- Emit one cell under `csv.QUOTE_MINIMAL`: wrap it in quotes, with inner
quotes doubled, exactly when it needs quoting. -/
def escapeCell (cs : List Char) : List Char :=
  if needsQuote cs then '"' :: (doubleQuotes cs ++ ['"']) else cs

/-- `convert_df_to_csv`: `to_csv(index=False)` — a header line followed by
one comma-delimited line per row, each cell quoted under
`csv.QUOTE_MINIMAL`, each line (the last included) ended by a newline. -/
def convert_df_to_csv (df : List CleanRow) : List Char :=
  joinSep '\n' ((headerCells :: df.map printCells).map
    (fun cells => joinSep ',' (cells.map escapeCell))) ++ ['\n']

/-- Scan an unquoted cell: its content runs until a cell or line delimiter. -/
def parseCellAux (acc : List Char) : List Char → (List Char × List Char)
  | [] => (acc, [])
  | c :: cs => if c = ',' ∨ c = '\n' then (acc, c :: cs) else parseCellAux (acc ++ [c]) cs

/-- Scan the content of a quoted cell after its opening quote: a doubled
quote is one content quote, a lone quote closes the cell, and a missing
closing quote is a parse failure.  `fuel` bounds the content length. -/
def parseQuoted : ℕ → List Char → List Char → Option (List Char × List Char)
  | 0, _, _ => none
  | _ + 1, _, [] => none
  | fuel + 1, acc, c :: rest =>
    if c = '"' then
      if rest.head? = some '"' then parseQuoted fuel (acc ++ ['"']) rest.tail
      else some (acc, rest)
    else parseQuoted fuel (acc ++ [c]) rest

/-- Scan one cell: quoted if it opens with a quote, plain otherwise. -/
def parseCell (cs : List Char) : Option (List Char × List Char) :=
  if cs.head? = some '"' then parseQuoted cs.length [] cs.tail else some (parseCellAux [] cs)

/-- Scan the cells of one line.  Returns the cells and `none` when the
input ended, or `some rest` when a line break was consumed.  `fuel` bounds
the cell count. -/
def parseCells : ℕ → List Char → Option (List (List Char) × Option (List Char))
  | 0, _ => none
  | fuel + 1, cs =>
    match parseCell cs with
    | none => none
    | some (cell, rest) =>
      match rest with
      | [] => some ([cell], none)
      | c :: r =>
        if c = ',' then
          match parseCells fuel r with
          | none => none
          | some (cells, rest2) => some (cell :: cells, rest2)
        else if c = '\n' then some ([cell], some r)
        else none

/-- Scan the rows of the text; a final newline ends the table.  `fuel`
bounds the row count. -/
def parseRows : ℕ → List Char → Option (List (List (List Char)))
  | 0, _ => none
  | fuel + 1, cs =>
    match parseCells (cs.length + 1) cs with
    | none => none
    | some (cells, none) => some [cells]
    | some (cells, some r) =>
      if r = [] then some [cells]
      else
        match parseRows fuel r with
        | none => none
        | some rows => some (cells :: rows)

/-- Parse one rational cell of the exported text. -/
def parseRatCell (cs : List Char) : Option ℚ :=
  match splitOnChar '/' cs with
  | [a, b] => some ((charsToInt a : ℚ) / (charsToNat b : ℚ))
  | _ => none

/-- Parse one date cell of the exported text. -/
def parseDateCell (cs : List Char) : Option Date :=
  match splitOnChar '-' cs with
  | [a, b, c] => some ⟨charsToNat a, charsToNat b, charsToNat c⟩
  | _ => none

/-- Interpret the cells of one parsed row as a table row; an empty month
cell is a missing month, as in `read_csv`. -/
def interpretRow (cells : List (List Char)) : Option CleanRow :=
  match cells with
  | [i, e, y, m, v] =>
    match parseDateCell e, parseRatCell y, parseRatCell v with
    | some d, some yr, some vv =>
      some ⟨⟨i⟩, d, yr, (if m = [] then none else some ⟨m⟩), vv⟩
    | _, _, _ => none
  | _ => none

/-- Interpret every parsed row. -/
def interpretRows : List (List (List Char)) → Option (List CleanRow)
  | [] => some []
  | cells :: rest =>
    match interpretRow cells, interpretRows rest with
    | some r, some rs => some (r :: rs)
    | _, _ => none

/-- Parse the exported delimited text: scan its rows, check the header
row, then interpret every following row as a table row. -/
def parseCsv (cs : List Char) : Option (List CleanRow) :=
  match parseRows (cs.length + 1) cs with
  | some (h :: rows) => if h = headerCells then interpretRows rows else none
  | _ => none

/-- First row of the spec's worked scenario (§8). -/
def sampleRow1 : CleanRow := ⟨"Food price inflation", ⟨2019, 1, 31⟩, 2019, some "January", 5⟩

/-- Second row of the spec's worked scenario (§8). -/
def sampleRow2 : CleanRow := ⟨"Food price inflation", ⟨2019, 1, 31⟩, 2019, some "January", 7⟩

/-- Third row of the spec's worked scenario (§8), filtered out by year. -/
def sampleRow3 : CleanRow := ⟨"Food price inflation", ⟨2020, 1, 31⟩, 2020, some "January", 10⟩

/-- The scenario's cleaned table. -/
def sampleTable : List CleanRow := [sampleRow1, sampleRow2, sampleRow3]

/-- The scenario's accepted-month set (every month present in the table). -/
def sampleMonths : List (Option String) := [some "January"]

/-- A raw row that survives cleaning untouched. -/
def rawRowObs : RawRow := ⟨"Food price inflation", "2019-01-31", "2019", some "January", "5.0"⟩

/-- A raw row with an unparseable `Value` cell. -/
def rawRowNA : RawRow := ⟨"Food price inflation", "2019-02-28", "2019", some "February", "N/A"⟩

/-- A raw row with a non-canonical month label. -/
def rawRowOdd : RawRow := ⟨"Food price inflation", "2019-03-31", "2019", some "NotAMonth", "6"⟩

/-- A raw row of a different category. -/
def rawRowOther : RawRow := ⟨"General inflation", "2019-01-31", "2019", some "January", "3.0"⟩

/-- A small raw source table exercising every cleaning rule. -/
def rawTable : List RawRow := [rawRowObs, rawRowNA, rawRowOdd, rawRowOther]

/-- The cleaned image of `rawRowObs`. -/
def cleanObs : CleanRow := ⟨"Food price inflation", ⟨2019, 1, 31⟩, 2019, some "January", 5⟩

/-- A row whose free-text cells hold every character the CSV quoting must
escape: the delimiter, the quote character and a line break. -/
def sampleRowComma : CleanRow :=
  ⟨"Food, \"price\"", ⟨2019, 1, 31⟩, 2019, some "Jan\nuary", 7⟩

set_option maxRecDepth 10000

lemma digitChar_toNat (d : ℕ) (hd : d < 10) : (digitChar d).toNat = 48 + d := by
  interval_cases d <;> decide

lemma digitVal_digitChar (d : ℕ) (hd : d < 10) : digitVal (digitChar d) = d := by
  simp [digitVal, digitChar_toNat d hd]

lemma natToCharsAux_eq (fuel n : ℕ) (h : n ≤ fuel) :
    natToCharsAux fuel n = ((Nat.digits 10 n).map digitChar).reverse := by
  induction fuel generalizing n with
  | zero =>
    interval_cases n
    simp [natToCharsAux]
  | succ fuel ih =>
    by_cases hn : n = 0
    · simp [natToCharsAux, hn]
    · rw [natToCharsAux, if_neg hn, ih (n / 10) (by omega),
        Nat.digits_def' (by norm_num : 1 < 10) (Nat.pos_of_ne_zero hn)]
      simp

lemma natToChars_eq (n : ℕ) (hn : n ≠ 0) :
    natToChars n = ((Nat.digits 10 n).map digitChar).reverse := by
  rw [natToChars, if_neg hn, natToCharsAux_eq n n le_rfl]

lemma charsToNat_natToChars (n : ℕ) : charsToNat (natToChars n) = n := by
  by_cases hn : n = 0
  · subst hn; decide
  · rw [natToChars_eq n hn, charsToNat, List.reverse_reverse, List.map_map]
    have : ∀ d ∈ Nat.digits 10 n, (digitVal ∘ digitChar) d = id d := by
      intro d hd
      have := Nat.digits_lt_base (by norm_num) hd
      simp [digitVal_digitChar d this]
    rw [List.map_congr_left this, List.map_id, Nat.ofDigits_digits]

lemma mem_natToChars (c : Char) (n : ℕ) (h : c ∈ natToChars n) :
    48 ≤ c.toNat ∧ c.toNat ≤ 57 := by
  by_cases hn : n = 0
  · subst hn
    simp [natToChars] at h
    subst h; decide
  · rw [natToChars_eq n hn] at h
    rw [List.mem_reverse, List.mem_map] at h
    obtain ⟨d, hd, rfl⟩ := h
    have := Nat.digits_lt_base (by norm_num) hd
    rw [digitChar_toNat d this]
    omega

lemma not_mem_natToChars (c : Char) (n : ℕ) (h : c.toNat < 48 ∨ 57 < c.toNat) :
    c ∉ natToChars n := by
  intro hmem
  have := mem_natToChars c n hmem
  omega

lemma natToChars_ne_nil (n : ℕ) : natToChars n ≠ [] := by
  by_cases hn : n = 0
  · subst hn; decide
  · rw [natToChars_eq n hn]
    simp [Nat.digits_ne_nil_iff_ne_zero, hn]

lemma mem_intToChars (c : Char) (n : ℤ) (h : c ∈ intToChars n) :
    c = '-' ∨ (48 ≤ c.toNat ∧ c.toNat ≤ 57) := by
  rw [intToChars] at h
  by_cases hn : n < 0
  · rw [if_pos hn] at h
    rcases List.mem_cons.mp h with h1 | h1
    · exact Or.inl h1
    · exact Or.inr (mem_natToChars c _ h1)
  · rw [if_neg hn] at h
    exact Or.inr (mem_natToChars c _ h)

lemma charsToInt_intToChars (n : ℤ) : charsToInt (intToChars n) = n := by
  rw [intToChars]
  by_cases hn : n < 0
  · rw [if_pos hn]
    simp only [charsToInt, List.head?_cons, List.tail_cons, if_true]
    rw [charsToNat_natToChars]
    omega
  · rw [if_neg hn, charsToInt]
    have hhead : (natToChars n.toNat).head? ≠ some '-' := by
      rcases h : natToChars n.toNat with _ | ⟨c, cs⟩
      · simp
      · have hc : c ≠ '-' := by
          intro hcon
          have := mem_natToChars c n.toNat (by rw [h]; exact List.mem_cons_self c cs)
          rw [hcon] at this
          revert this; decide
        simp [hc]
    rw [if_neg hhead, charsToNat_natToChars]
    omega

lemma splitOnChar_ne_nil (sep : Char) (l : List Char) : splitOnChar sep l ≠ [] := by
  cases l with
  | nil => simp [splitOnChar]
  | cons c cs =>
    rw [splitOnChar]
    rcases h : splitOnChar sep cs with _ | ⟨h1, t⟩
    · simp
    · by_cases hc : c = sep <;> simp [hc]

lemma splitOnChar_of_not_mem (sep : Char) (l : List Char) (h : sep ∉ l) :
    splitOnChar sep l = [l] := by
  induction l with
  | nil => rfl
  | cons c cs ih =>
    have hc : c ≠ sep := fun hcon => h (hcon ▸ List.mem_cons_self c cs)
    have hcs : sep ∉ cs := fun hcon => h (List.mem_cons_of_mem c hcon)
    rw [splitOnChar, ih hcs]
    simp [hc]

lemma splitOnChar_append (sep : Char) (l rest : List Char) (h : sep ∉ l) :
    splitOnChar sep (l ++ sep :: rest) = l :: splitOnChar sep rest := by
  induction l with
  | nil =>
    rw [List.nil_append, splitOnChar]
    rcases hr : splitOnChar sep rest with _ | ⟨h1, t⟩
    · exact absurd hr (splitOnChar_ne_nil sep rest)
    · simp
  | cons c cs ih =>
    have hc : c ≠ sep := fun hcon => h (hcon ▸ List.mem_cons_self c cs)
    have hcs : sep ∉ cs := fun hcon => h (List.mem_cons_of_mem c hcon)
    rw [List.cons_append, splitOnChar, ih hcs]
    simp [hc]

lemma dash_not_mem_natToChars (n : ℕ) : '-' ∉ natToChars n :=
  not_mem_natToChars '-' n (Or.inl (by decide))

lemma slash_not_mem_natToChars (n : ℕ) : '/' ∉ natToChars n :=
  not_mem_natToChars '/' n (Or.inl (by decide))

lemma slash_not_mem_intToChars (n : ℤ) : '/' ∉ intToChars n := by
  intro h
  rcases mem_intToChars _ _ h with h1 | h1
  · exact absurd h1 (by decide)
  · revert h1; decide

lemma parseRatCell_print (q : ℚ) :
    parseRatCell (intToChars q.num ++ '/' :: natToChars q.den) = some q := by
  rw [parseRatCell, splitOnChar_append '/' _ _ (slash_not_mem_intToChars _),
    splitOnChar_of_not_mem '/' _ (slash_not_mem_natToChars _)]
  simp only [charsToInt_intToChars, charsToNat_natToChars]
  rw [Rat.num_div_den]

lemma parseDateCell_print (d : Date) :
    parseDateCell (natToChars d.year ++ '-' :: (natToChars d.month ++ '-' :: natToChars d.day)) =
      some d := by
  rw [parseDateCell, splitOnChar_append '-' _ _ (dash_not_mem_natToChars _),
    splitOnChar_append '-' _ _ (dash_not_mem_natToChars _),
    splitOnChar_of_not_mem '-' _ (dash_not_mem_natToChars _)]
  simp only [charsToNat_natToChars]

lemma printCells_ne_nil (r : CleanRow) : printCells r ≠ [] := by
  simp [printCells]

lemma of_needsQuote_false (s : List Char) (h : needsQuote s = false) :
    ∀ c ∈ s, ¬(c = ',' ∨ c = '\n') ∧ c ≠ '"' := by
  rw [needsQuote, List.any_eq_false] at h
  intro c hc
  have := h c hc
  simp only [Bool.or_eq_true, decide_eq_true_eq, not_or] at this
  exact ⟨fun hor => hor.elim this.1.1.1 this.1.2, this.1.1.2⟩

lemma parseQuoted_escape (s : List Char) (acc d : List Char) (fuel : ℕ)
    (hd : d.head? ≠ some '"') (hfuel : (doubleQuotes s).length + 1 ≤ fuel) :
    parseQuoted fuel acc (doubleQuotes s ++ '"' :: d) = some (acc ++ s, d) := by
  induction s generalizing acc fuel with
  | nil =>
    cases fuel with
    | zero => exact absurd hfuel (by simp)
    | succ fuel =>
      rw [doubleQuotes, List.nil_append, parseQuoted]
      rw [if_pos rfl, if_neg hd]
      simp
  | cons c cs ih =>
    by_cases hc : c = '"'
    · subst hc
      have hlen : (doubleQuotes ('"' :: cs)).length = (doubleQuotes cs).length + 2 := by
        simp [doubleQuotes]
      cases fuel with
      | zero => omega
      | succ fuel =>
        rw [doubleQuotes, if_pos rfl, List.cons_append, List.cons_append, parseQuoted]
        rw [if_pos rfl]
        simp only [List.head?_cons, List.tail_cons, if_true]
        rw [ih (acc ++ ['"']) fuel (by rw [hlen] at hfuel; omega)]
        simp
    · have hlen : (doubleQuotes (c :: cs)).length = (doubleQuotes cs).length + 1 := by
        simp [doubleQuotes, hc]
      cases fuel with
      | zero => omega
      | succ fuel =>
        rw [doubleQuotes, if_neg hc, List.cons_append, parseQuoted, if_neg hc]
        rw [ih (acc ++ [c]) fuel (by rw [hlen] at hfuel; omega)]
        simp

lemma parseCellAux_spec (s : List Char) (acc d : List Char)
    (hs : ∀ c ∈ s, ¬(c = ',' ∨ c = '\n'))
    (hd : d = [] ∨ d.head? = some ',' ∨ d.head? = some '\n') :
    parseCellAux acc (s ++ d) = (acc ++ s, d) := by
  induction s generalizing acc with
  | nil =>
    rw [List.nil_append, List.append_nil]
    rcases hd with rfl | hd2 | hd2
    · rw [parseCellAux]
    · cases d with
      | nil => exact absurd hd2 (by simp)
      | cons c r =>
        rw [List.head?_cons, Option.some.injEq] at hd2
        rw [parseCellAux, if_pos (Or.inl hd2)]
    · cases d with
      | nil => exact absurd hd2 (by simp)
      | cons c r =>
        rw [List.head?_cons, Option.some.injEq] at hd2
        rw [parseCellAux, if_pos (Or.inr hd2)]
  | cons c cs ih =>
    have hc := hs c (List.mem_cons_self c cs)
    rw [List.cons_append, parseCellAux, if_neg hc,
      ih (acc ++ [c]) (fun x hx => hs x (List.mem_cons_of_mem c hx))]
    simp

lemma parseCell_escape (s d : List Char)
    (hd : d = [] ∨ d.head? = some ',' ∨ d.head? = some '\n') :
    parseCell (escapeCell s ++ d) = some (s, d) := by
  have hdq : d.head? ≠ some '"' := by
    rcases hd with rfl | hd2 | hd2
    · simp
    · rw [hd2]; simp
    · rw [hd2]; simp
  rw [escapeCell]
  by_cases hq : needsQuote s = true
  · rw [if_pos hq, List.cons_append, parseCell]
    simp only [List.head?_cons, List.tail_cons, if_true]
    rw [List.append_assoc, List.singleton_append,
      parseQuoted_escape s [] d _ hdq (by simp)]
    simp
  · rw [if_neg hq]
    have hs := of_needsQuote_false s (by simpa using hq)
    have hh : ¬((s ++ d).head? = some '"') := by
      cases s with
      | nil => rw [List.nil_append]; exact hdq
      | cons c cs =>
        rw [List.cons_append, List.head?_cons, Option.some.injEq]
        exact (hs c (List.mem_cons_self c cs)).2
    rw [parseCell, if_neg hh, parseCellAux_spec s [] d (fun c hc => (hs c hc).1) hd]
    simp

lemma parseCells_escape (cells : List (List Char)) (d : List Char) (out : Option (List Char))
    (hd : (d = [] ∧ out = none) ∨ ∃ r, d = '\n' :: r ∧ out = some r) :
    ∀ fuel, cells ≠ [] → cells.length ≤ fuel →
      parseCells fuel (joinSep ',' (cells.map escapeCell) ++ d) = some (cells, out) := by
  induction cells with
  | nil => intro fuel h1 _; exact absurd rfl h1
  | cons c cs ih =>
    intro fuel _ h2
    have hdok : d = [] ∨ d.head? = some ',' ∨ d.head? = some '\n' := by
      rcases hd with ⟨rfl, _⟩ | ⟨r, rfl, _⟩
      · exact Or.inl rfl
      · exact Or.inr (Or.inr rfl)
    cases fuel with
    | zero => exact absurd h2 (by simp)
    | succ fuel =>
      cases cs with
      | nil =>
        rw [List.map_cons, List.map_nil, joinSep, parseCells, parseCell_escape c d hdok]
        rcases hd with ⟨rfl, rfl⟩ | ⟨r, rfl, rfl⟩
        · rfl
        · simp
      | cons c2 cs2 =>
        rw [List.map_cons, List.map_cons, joinSep, List.append_assoc, List.cons_append,
          parseCells,
          parseCell_escape c (',' :: (joinSep ',' (escapeCell c2 :: cs2.map escapeCell) ++ d))
            (Or.inr (Or.inl rfl))]
        have h2' : (c2 :: cs2).length ≤ fuel := by
          simp only [List.length_cons] at h2 ⊢
          omega
        have hih := ih fuel (by simp) h2'
        simp only [List.map_cons] at hih
        simp [hih]

lemma joinSep_count (sep : Char) (ls : List (List Char)) :
    ls.length ≤ (joinSep sep ls).length + 1 := by
  induction ls with
  | nil => simp [joinSep]
  | cons c cs ih =>
    cases cs with
    | nil => simp [joinSep]
    | cons c2 cs2 =>
      rw [joinSep]
      simp only [List.length_cons, List.length_append] at ih ⊢
      omega

lemma parseRows_escape (rows : List (List (List Char)))
    (h3 : ∀ row ∈ rows, row ≠ []) :
    ∀ fuel, rows ≠ [] → rows.length ≤ fuel →
      parseRows fuel
        (joinSep '\n' (rows.map (fun cells => joinSep ',' (cells.map escapeCell))) ++ ['\n']) =
        some rows := by
  induction rows with
  | nil => intro fuel h1 _; exact absurd rfl h1
  | cons row rest ih =>
    intro fuel _ h2
    cases fuel with
    | zero => exact absurd h2 (by simp)
    | succ fuel =>
      have hrow : row ≠ [] := h3 row (List.mem_cons_self row rest)
      cases rest with
      | nil =>
        rw [List.map_cons, List.map_nil, joinSep, parseRows]
        have hb : row.length ≤
            (joinSep ',' (row.map escapeCell) ++ ['\n']).length + 1 := by
          have hcount := joinSep_count ',' (row.map escapeCell)
          simp only [List.length_map] at hcount
          simp only [List.length_append, List.length_cons, List.length_nil]
          omega
        rw [parseCells_escape row ['\n'] (some []) (Or.inr ⟨[], rfl, rfl⟩) _ hrow hb]
        simp
      | cons row2 rest2 =>
        rw [List.map_cons, List.map_cons, joinSep, List.append_assoc, List.cons_append,
          parseRows]
        have hb : row.length ≤
            (joinSep ',' (row.map escapeCell) ++
              '\n' :: (joinSep '\n'
                (joinSep ',' (row2.map escapeCell) :: rest2.map
                  (fun cells => joinSep ',' (cells.map escapeCell))) ++ ['\n'])).length + 1 := by
          have hcount := joinSep_count ',' (row.map escapeCell)
          simp only [List.length_map] at hcount
          simp only [List.length_append, List.length_cons]
          omega
        rw [parseCells_escape row
          ('\n' :: (joinSep '\n'
            (joinSep ',' (row2.map escapeCell) :: rest2.map
              (fun cells => joinSep ',' (cells.map escapeCell))) ++ ['\n']))
          (some (joinSep '\n'
            (joinSep ',' (row2.map escapeCell) :: rest2.map
              (fun cells => joinSep ',' (cells.map escapeCell))) ++ ['\n']))
          (Or.inr ⟨_, rfl, rfl⟩) _ hrow hb]
        have h2' : (row2 :: rest2).length ≤ fuel := by
          simp only [List.length_cons] at h2 ⊢
          omega
        have hih := ih (fun x hx => h3 x (List.mem_cons_of_mem row hx)) fuel (by simp) h2'
        simp only [List.map_cons] at hih
        have hne : joinSep '\n'
            (joinSep ',' (row2.map escapeCell) :: rest2.map
              (fun cells => joinSep ',' (cells.map escapeCell))) ++ ['\n'] ≠ [] := by
          simp
        simp [hne, hih]

lemma string_of_data_nil (m : String) (h : m.data = []) : m = "" := by
  cases m with
  | mk d =>
    simp only at h
    rw [h]

lemma interpretRow_print (r : CleanRow) (hm : r.Month ≠ some "") :
    interpretRow (printCells r) = some r := by
  simp only [printCells, interpretRow, parseDateCell_print, parseRatCell_print]
  rcases hmm : r.Month with _ | m
  · simp
    rw [← hmm]
  · have hdata : m.data ≠ [] := by
      intro hnil
      exact hm (by rw [hmm, string_of_data_nil m hnil])
    simp [hdata]
    rw [← hmm]

lemma interpretRows_print (t : List CleanRow) (hm : ∀ r ∈ t, r.Month ≠ some "") :
    interpretRows (t.map printCells) = some t := by
  induction t with
  | nil => rfl
  | cons r rs ih =>
    rw [List.map_cons, interpretRows, interpretRow_print r (hm r (List.mem_cons_self r rs)),
      ih (fun x hx => hm x (List.mem_cons_of_mem r hx))]

/-- C1: `filtered_data` returns exactly the rows of the input whose `Year`
lies in the closed interval `[yLow, yHigh]`, whose `Month` is in the
accepted set, and whose `Value` lies in the closed interval `[vLow, vHigh]`,
all three conjoined; in particular with year interval `[y, y]` every
returned row has `Year = y`. -/
theorem filtered_data_spec :
    (∀ (df : List CleanRow) (yLow yHigh : ℚ) (months : List (Option String))
      (vLow vHigh : ℚ) (r : CleanRow),
      r ∈ filtered_data df yLow yHigh months vLow vHigh ↔
        r ∈ df ∧ (yLow ≤ r.Year ∧ r.Year ≤ yHigh) ∧ r.Month ∈ months ∧
          (vLow ≤ r.Value ∧ r.Value ≤ vHigh)) ∧
    (∀ (df : List CleanRow) (y : ℚ) (months : List (Option String)) (vLow vHigh : ℚ)
      (r : CleanRow), r ∈ filtered_data df y y months vLow vHigh → r.Year = y) := by
  have main : ∀ (df : List CleanRow) (yLow yHigh : ℚ) (months : List (Option String))
      (vLow vHigh : ℚ) (r : CleanRow),
      r ∈ filtered_data df yLow yHigh months vLow vHigh ↔
        r ∈ df ∧ (yLow ≤ r.Year ∧ r.Year ≤ yHigh) ∧ r.Month ∈ months ∧
          (vLow ≤ r.Value ∧ r.Value ≤ vHigh) := by
    intro df yLow yHigh months vLow vHigh r
    rw [filtered_data, List.mem_filter]
    simp only [Bool.and_eq_true, decide_eq_true_eq]
    tauto
  refine ⟨main, fun df y months vLow vHigh r hr => ?_⟩
  have h2 := (main df y y months vLow vHigh r).mp hr
  exact le_antisymm h2.2.1.2 h2.2.1.1

/-- Witness for C1 at the scenario table. -/
theorem filtered_data_spec_witness :
    sampleRow1 ∈ filtered_data sampleTable 2019 2019 sampleMonths 0 100 ∧
      sampleRow1.Year = 2019 := by
  have h1 := (filtered_data_spec.1 sampleTable 2019 2019 sampleMonths 0 100 sampleRow1).mpr
    (of_decide_eq_true (by with_unfolding_all rfl))
  exact ⟨h1, filtered_data_spec.2 sampleTable 2019 sampleMonths 0 100 sampleRow1 h1⟩

/-- C2: every row of the cleaned table stems from a raw source row whose
`EndDate`, `Year` and `Value` cells all parsed successfully (so its typed
fields are exactly those parse results), and in particular from no raw row
whose `Value` cell is `"N/A"`; unparseable rows are dropped, never kept. -/
theorem cleaned_rows_fully_typed (raws : List RawRow) (c : CleanRow)
    (hc : c ∈ cleanRows raws) :
    ∃ r ∈ raws, r.Item = "Food price inflation" ∧ parseDate r.EndDate = some c.EndDate ∧
      parseNum r.Year = some c.Year ∧ parseNum r.Value = some c.Value ∧ r.Value ≠ "N/A" := by
  rw [cleanRows] at hc
  obtain ⟨r, hr, hcr⟩ := List.mem_filterMap.mp hc
  obtain ⟨hmem, hdec⟩ := List.mem_filter.mp hr
  have hitem : r.Item = "Food price inflation" := of_decide_eq_true hdec
  rw [coerceRow] at hcr
  split at hcr
  · rename_i d y v hd hy hv
    rw [Option.some.injEq] at hcr
    subst hcr
    refine ⟨r, hmem, hitem, hd, hy, hv, fun hna => ?_⟩
    rw [hna] at hv
    have : parseNum "N/A" = none := by with_unfolding_all rfl
    rw [this] at hv
    exact Option.noConfusion hv
  · exact Option.noConfusion hcr

/-- Witness for C2 at the sample raw table. -/
theorem cleaned_rows_fully_typed_witness :
    ∃ r ∈ rawTable, r.Item = "Food price inflation" ∧
      parseDate r.EndDate = some cleanObs.EndDate ∧ parseNum r.Year = some cleanObs.Year ∧
      parseNum r.Value = some cleanObs.Value ∧ r.Value ≠ "N/A" :=
  cleaned_rows_fully_typed rawTable cleanObs (of_decide_eq_true (by with_unfolding_all rfl))

/-- C3: every row of the cleaned table has `Item = "Food price inflation"`. -/
theorem cleaned_item_closure (raws : List RawRow) (c : CleanRow)
    (hc : c ∈ cleanRows raws) : c.Item = "Food price inflation" := by
  rw [cleanRows] at hc
  obtain ⟨r, hr, hcr⟩ := List.mem_filterMap.mp hc
  have hitem : r.Item = "Food price inflation" :=
    of_decide_eq_true (List.mem_filter.mp hr).2
  rw [coerceRow] at hcr
  split at hcr
  · rw [Option.some.injEq] at hcr
    subst hcr
    exact hitem
  · exact Option.noConfusion hcr

/-- Witness for C3 at the sample raw table. -/
theorem cleaned_item_closure_witness : cleanObs.Item = "Food price inflation" :=
  cleaned_item_closure rawTable cleanObs (of_decide_eq_true (by with_unfolding_all rfl))

/-- C4: filtering with an empty accepted-month set returns an empty table,
whatever the year and value intervals. -/
theorem filtered_data_empty_months (df : List CleanRow) (yLow yHigh vLow vHigh : ℚ) :
    filtered_data df yLow yHigh [] vLow vHigh = [] := by
  simp [filtered_data]

/-- C5: filtering an already-filtered table with the same constraints
returns the same list of rows, in the same order. -/
theorem filtered_data_idempotent (df : List CleanRow) (yLow yHigh : ℚ)
    (months : List (Option String)) (vLow vHigh : ℚ) :
    filtered_data (filtered_data df yLow yHigh months vLow vHigh) yLow yHigh months vLow vHigh =
      filtered_data df yLow yHigh months vLow vHigh := by
  conv_lhs => rw [filtered_data]
  apply List.filter_eq_self.mpr
  intro a ha
  rw [filtered_data] at ha
  exact (List.mem_filter.mp ha).2

/-- C6: for each reduction kind, the aggregated table has one row per
distinct (month, year) pair of its input, and every aggregated row's
(month, year) pair occurs in the input (no zero-filling). -/
theorem aggregate_group_count (k : AggKind) (t : List CleanRow) :
    (aggregate k t).length = (t.map rowKey).toFinset.card ∧
      ∀ a ∈ aggregate k t, (a.Month, a.Year) ∈ t.map rowKey := by
  constructor
  · rw [aggregate, List.length_map, List.card_toFinset]
  · intro a ha
    rw [aggregate] at ha
    obtain ⟨p, hp, rfl⟩ := List.mem_map.mp ha
    exact List.mem_dedup.mp hp

/-- Witness for C6 at the scenario's filtered table. -/
theorem aggregate_group_count_witness :
    (some "January", (2019 : ℚ)) ∈
      (filtered_data sampleTable 2019 2019 sampleMonths 0 100).map rowKey :=
  (aggregate_group_count AggKind.sum
      (filtered_data sampleTable 2019 2019 sampleMonths 0 100)).2
    ⟨some "January", 2019, 12⟩ (of_decide_eq_true (by with_unfolding_all rfl))

/-- C7: the spec's worked scenario: filtering keeps exactly the two 2019
rows, and aggregating them gives 12 by sum, 6 by average and 6 by median. -/
theorem scenario_filter_and_aggregate :
    filtered_data sampleTable 2019 2019 sampleMonths 0 100 = [sampleRow1, sampleRow2] ∧
      aggregate AggKind.sum (filtered_data sampleTable 2019 2019 sampleMonths 0 100) =
        [⟨some "January", 2019, 12⟩] ∧
      aggregate AggKind.average (filtered_data sampleTable 2019 2019 sampleMonths 0 100) =
        [⟨some "January", 2019, 6⟩] ∧
      aggregate AggKind.median (filtered_data sampleTable 2019 2019 sampleMonths 0 100) =
        [⟨some "January", 2019, 6⟩] :=
  ⟨by decide, by with_unfolding_all rfl, by with_unfolding_all rfl, by with_unfolding_all rfl⟩

/-- C8: parsing the exported delimited text recovers exactly the exported
table — its header and every row's cells, with `QUOTE_MINIMAL` quoting
covering arbitrary delimiter, quote and line-break characters in the
free-text cells — for every table whose month labels are not the empty
string; and that last case is unserializable by the program itself: a row
with the empty month label and the same row with a missing month export to
the very same text. -/
theorem csv_export_roundtrip :
    (∀ t : List CleanRow, (∀ r ∈ t, r.Month ≠ some "") →
      parseCsv (convert_df_to_csv t) = some t) ∧
    (∀ (i : String) (d : Date) (y v : ℚ),
      convert_df_to_csv [⟨i, d, y, some "", v⟩] = convert_df_to_csv [⟨i, d, y, none, v⟩]) := by
  constructor
  · intro t hm
    have hne : ∀ row ∈ headerCells :: t.map printCells, row ≠ [] := by
      intro row hrow
      rcases List.mem_cons.mp hrow with rfl | hrow2
      · simp [headerCells]
      · obtain ⟨r, _, rfl⟩ := List.mem_map.mp hrow2
        exact printCells_ne_nil r
    have hlen : (headerCells :: t.map printCells).length ≤
        (joinSep '\n' ((headerCells :: t.map printCells).map
          (fun cells => joinSep ',' (cells.map escapeCell))) ++ ['\n']).length + 1 := by
      have hcount := joinSep_count '\n' ((headerCells :: t.map printCells).map
        (fun cells => joinSep ',' (cells.map escapeCell)))
      simp only [List.length_map, List.length_cons] at hcount
      simp only [List.length_append, List.length_cons, List.length_nil, List.length_map]
      omega
    rw [convert_df_to_csv, parseCsv,
      parseRows_escape (headerCells :: t.map printCells) hne _ (by simp) hlen]
    show (if headerCells = headerCells then interpretRows (t.map printCells) else none) = some t
    rw [if_pos rfl]
    exact interpretRows_print t hm
  · intro i d y v
    rfl

/-- Witness for C8 at a table whose cells hold delimiter, quote and
line-break characters. -/
theorem csv_export_roundtrip_witness :
    parseCsv (convert_df_to_csv [sampleRow1, sampleRowComma]) = some [sampleRow1, sampleRowComma] :=
  csv_export_roundtrip.1 [sampleRow1, sampleRowComma] (by decide)

/-- C9: a failed source fetch propagates as `DataUnavailable` through the
whole pipeline; no filtering happens and no table is produced. -/
theorem pipeline_data_unavailable (yLow yHigh : ℚ) (months : List (Option String))
    (vLow vHigh : ℚ) :
    run_pipeline (Except.error LoadError.DataUnavailable) yLow yHigh months vLow vHigh =
      Except.error LoadError.DataUnavailable := rfl

/-- C10: preparation never validates `Month`: a raw row of the right
category whose `EndDate`, `Year` and `Value` cells parse is retained, with
its `Month` kept verbatim, whatever that `Month` is. -/
theorem month_never_validated (r : RawRow) (raws : List RawRow) (hmem : r ∈ raws)
    (hitem : r.Item = "Food price inflation") (d : Date) (y v : ℚ)
    (hd : parseDate r.EndDate = some d) (hy : parseNum r.Year = some y)
    (hv : parseNum r.Value = some v) :
    (⟨r.Item, d, y, r.Month, v⟩ : CleanRow) ∈ cleanRows raws := by
  rw [cleanRows]
  apply List.mem_filterMap.mpr
  refine ⟨r, List.mem_filter.mpr ⟨hmem, by rw [decide_eq_true_eq]; exact hitem⟩, ?_⟩
  rw [coerceRow, hd, hy, hv]

/-- Witness for C10 at a raw row with a non-canonical month label. -/
theorem month_never_validated_witness :
    (⟨rawRowOdd.Item, ⟨2019, 3, 31⟩, 2019, rawRowOdd.Month, 6⟩ : CleanRow) ∈
      cleanRows rawTable :=
  month_never_validated rawRowOdd rawTable (by decide) (by decide) ⟨2019, 3, 31⟩ 2019 6
    (by decide) (by decide) (by decide)
